import Mathlib

/-!
Shallow embedding of the imgrs rendering pipeline (src/src/main.rs,
src/src/cli.rs, src/src/terminal.rs) and proofs about the spec's claims.

Conventions:
* Rust `u8`/`u32`/`usize` values are modelled as `Nat`; the one subtraction
  whose underflow matters (`rows - RESIZE_OFFSET_Y`) is modelled with Rust's
  overflow-checked semantics as an `Option` (`none` = panic).
* Rust `f32` arithmetic in `scale_frames` is modelled as exact rational
  arithmetic over `ℚ`; `as u32` on a nonnegative float is `Int.toNat ∘ Int.floor`.
* `format!("{} {} {} {}", CONST, r, g, b)` in Rust does not interpolate the
  placeholders inside the runtime string `CONST`: it concatenates `CONST`,
  a space, and the decimal renderings of `r`, `g`, `b` separated by spaces.
  The embedding reproduces exactly that.
-/

namespace Imgrs

/-! ### Constants (src/src/main.rs lines 18-35) -/

def RESIZE_OFFSET_Y : Nat := 8
def RESIZE_FACTOR_Y : Nat := 2
def RESIZE_FACTOR_X : Nat := 1
def DEFAULT_TERM_COLS : Nat := 80
def DEFAULT_TERM_ROWS : Nat := 24
def NUM_ADDITIONAL_LINES : Nat := 2

/-- `"\x1B[{}A"` (the placeholder braces are literal characters of the Rust constant). -/
def ANSI_CURSOR_UP : String := "\x1b[\x7b\x7dA"

def ANSI_CURSOR_HIDE : String := "\x1b[?25l"

def ANSI_CURSOR_SHOW : String := "\x1b[?25h"

def ANSI_BG_TRANSPARENT_COLOR : String := "\x1b[0;39;49m"

/-- `"\x1b[48;2;{};{};{}m"` with literal placeholder braces. -/
def ANSI_BG_RGB_COLOR : String := "\x1b[48;2;\x7b\x7d;\x7b\x7d;\x7b\x7dm"

def ANSI_FG_TRANSPARENT_COLOR : String := "\x1b[0m "

/-- `"\x1b[38;2;{};{};{}m▄"` with literal placeholder braces. -/
def ANSI_FG_RGB_COLOR : String := "\x1b[38;2;\x7b\x7d;\x7b\x7d;\x7b\x7dm▄"

def ANSI_RESET : String := "\x1b[0m"

/-! ### Data model -/

/-- One RGBA pixel, channels 0-255 (`u8`). -/
structure Rgba where
  r : Nat
  g : Nat
  b : Nat
  a : Nat
deriving DecidableEq

/-- `ImageFrame` (src/src/main.rs lines 37-56): dimensions plus the
`get_pixel_rgba` accessor. -/
structure ImageFrame where
  width : Nat
  height : Nat
  pixel : Nat → Nat → Rgba

/-! ### Row Encoder (src/src/main.rs `escape_frames`, lines 155-209) -/

/-- The string pushed for the upper pixel of a cell (lines 175-180):
transparent constant when `a < 128`, otherwise
`format!("{} {} {} {}", ANSI_BG_RGB_COLOR, r, g, b)`. -/
def upperCell (p : Rgba) : String :=
  if p.a < 128 then ANSI_BG_TRANSPARENT_COLOR
  else ANSI_BG_RGB_COLOR ++ " " ++ Nat.repr p.r ++ " " ++ Nat.repr p.g
       ++ " " ++ Nat.repr p.b

/-- The string pushed for the lower pixel of a cell (lines 183-188). -/
def lowerCell (p : Rgba) : String :=
  if p.a < 128 then ANSI_FG_TRANSPARENT_COLOR
  else ANSI_FG_RGB_COLOR ++ " " ++ Nat.repr p.r ++ " " ++ Nat.repr p.g
       ++ " " ++ Nat.repr p.b

/-- One character cell at column `x` of the row-pair starting at pixel row `y`. -/
def cell (f : ImageFrame) (y x : Nat) : String :=
  upperCell (f.pixel x y) ++ lowerCell (f.pixel x (y + 1))

/-- The `for x in 0..max_x` loop of the spawned worker, accumulated left to
right: `cellsUpTo f y n` is the line contents after processing columns
`0, …, n-1`. -/
def cellsUpTo (f : ImageFrame) (y : Nat) : Nat → String
  | 0 => ""
  | n + 1 => cellsUpTo f y n ++ cell f y n

/-- The full line a worker sends for row-pair index `i` (pixel rows `2*i`
and `2*i+1`): the cells, then `ANSI_RESET`, then a newline. -/
def encodeLine (f : ImageFrame) (i : Nat) : String :=
  cellsUpTo f (2 * i) f.width ++ ANSI_RESET ++ "\n"

/-- `max_y = height - (height % 2)` (line 160). -/
def maxY (f : ImageFrame) : Nat := f.height - f.height % 2

/-- The receiving loop (lines 200-203): `lines` starts as `max_y/2` empty
strings and each received `(idx, line)` pair is written at its index. -/
def assembleLines (n : Nat) (res : List (Nat × String)) : List String :=
  res.foldl (fun acc p => acc.set p.1 p.2) (List.replicate n "")

/-- The multiset of `(y/2, line)` messages the workers send, listed in
row-pair order; an actual run delivers some permutation of this list. -/
def sends (f : ImageFrame) : List (Nat × String) :=
  (List.range (maxY f / 2)).map (fun i => (i, encodeLine f i))

/-- The encoder's result for one frame: the assembly of the workers'
messages (in-order delivery shown here; permutation invariance is proved
below). -/
def escapeFrame (f : ImageFrame) : List String :=
  assembleLines (maxY f / 2) (sends f)

/-- `escape_frames` (lines 155-209): encode every frame. -/
def escape_frames (frames : List ImageFrame) : List (List String) :=
  frames.map escapeFrame

/-- Substring occurrence: the characters of `sub` appear contiguously in `s`. -/
def occursIn (sub s : String) : Prop :=
  sub.data <:+: s.data

instance (sub s : String) : Decidable (occursIn sub s) :=
  inferInstanceAs (Decidable (sub.data <:+: s.data))

/-- A 2×2 frame whose every pixel is opaque red (255,0,0,255). -/
def redFrame : ImageFrame := ⟨2, 2, fun _ _ => ⟨255, 0, 0, 255⟩⟩

/-! ### Assembly lemmas for the Row Encoder -/

lemma foldl_set_map_range (g : Nat → String) :
    ∀ (n : Nat) (init : List String), n ≤ init.length →
      List.foldl (fun acc p => acc.set p.1 p.2) init
        ((List.range n).map (fun i => (i, g i))) =
      ((List.range n).map g) ++ init.drop n := by
  intro n
  induction n with
  | zero => intro init _; simp
  | succ n ih =>
    intro init h
    have hn : n < init.length := by omega
    have hlen : ((List.range n).map g).length = n := by simp
    rw [List.range_succ, List.map_append, List.foldl_append, ih init (by omega)]
    simp only [List.map_cons, List.map_nil, List.foldl_cons, List.foldl_nil]
    rw [List.set_append_right _ _ (le_of_eq hlen), hlen, Nat.sub_self,
      List.drop_eq_getElem_cons hn, List.set_cons_zero, List.map_append]
    simp

/-- In-order assembly of the workers' messages produces the lines in
row-pair order. -/
lemma escapeFrame_eq_map (f : ImageFrame) :
    escapeFrame f = (List.range (maxY f / 2)).map (encodeLine f) := by
  unfold escapeFrame assembleLines sends
  rw [foldl_set_map_range (encodeLine f) (maxY f / 2)
    (List.replicate (maxY f / 2) "") (by simp)]
  simp

/-- Assembly is invariant under the arrival order of the messages. -/
lemma assembleLines_perm (f : ImageFrame) (res : List (Nat × String))
    (hres : res.Perm (sends f)) :
    assembleLines (maxY f / 2) res = escapeFrame f := by
  unfold escapeFrame
  unfold assembleLines
  apply hres.foldl_eq'
  intro x hx y hy z
  have hx2 : ∃ i, (i, encodeLine f i) = x := by
    have hm := hres.mem_iff.mp hx
    simp only [sends, List.mem_map, List.mem_range] at hm
    obtain ⟨i, _, h⟩ := hm
    exact ⟨i, h⟩
  have hy2 : ∃ j, (j, encodeLine f j) = y := by
    have hm := hres.mem_iff.mp hy
    simp only [sends, List.mem_map, List.mem_range] at hm
    obtain ⟨j, _, h⟩ := hm
    exact ⟨j, h⟩
  obtain ⟨i, rfl⟩ := hx2
  obtain ⟨j, rfl⟩ := hy2
  by_cases hij : i = j
  · subst hij; rfl
  · simpa using List.set_comm (encodeLine f i) (encodeLine f j) z hij

/-- Any processed column's cell appears contiguously inside the accumulated
line. -/
lemma cellsUpTo_split (f : ImageFrame) (y : Nat) :
    ∀ n x, x < n → ∃ A B, cellsUpTo f y n = A ++ cell f y x ++ B := by
  intro n
  induction n with
  | zero => intro x hx; omega
  | succ n ih =>
    intro x hx
    by_cases hxn : x = n
    · subst hxn
      exact ⟨cellsUpTo f y x, "", by simp [cellsUpTo]⟩
    · obtain ⟨A, B, hAB⟩ := ih x (by omega)
      refine ⟨A, B ++ cell f y n, ?_⟩
      rw [cellsUpTo, hAB]
      simp [String.append_assoc]

/-- A frame with an odd pixel count in one column pair; used as the concrete
witness frame. Pixel rows 0..3 carry distinct red channels. -/
def exFrame : ImageFrame := ⟨1, 4, fun _ y => ⟨y, 10, 20, 255⟩⟩

/-- A 1×2 frame whose pixels are fully transparent. -/
def clearFrame : ImageFrame := ⟨1, 2, fun _ _ => ⟨0, 0, 0, 0⟩⟩

set_option maxRecDepth 80000 in
/-- C1: the claim says an opaque red upper pixel yields the substring
`"\x1b[48;2;255;0;0m"` and a red lower pixel yields `"\x1b[38;2;255;0;0m▄"`.
The code instead leaves the `\x7b\x7d` placeholders of the constants
uninterpolated and appends the channel values after the `m`, so neither
claimed substring occurs in the line encoded for an all-red 2×2 frame; the
substrings that do occur are the broken ones shown in the last two
conjuncts. -/
theorem red_pixel_escape_code_bug :
    ¬ occursIn "\x1b[48;2;255;0;0m" (encodeLine redFrame 0) ∧
    ¬ occursIn "\x1b[38;2;255;0;0m▄" (encodeLine redFrame 0) ∧
    occursIn (ANSI_BG_RGB_COLOR ++ " 255 0 0") (encodeLine redFrame 0) ∧
    occursIn (ANSI_FG_RGB_COLOR ++ " 255 0 0") (encodeLine redFrame 0) := by
  decide

/-- C2: the Row Encoder emits exactly `height / 2` lines, line `i` being the
encoding of pixel rows `2*i` and `2*i+1`, and assembling the row-pair
messages in any arrival order (any permutation of `sends f`) reproduces the
same byte-identical output. -/
theorem escape_frames_deterministic (f : ImageFrame) (res : List (Nat × String))
    (hres : res.Perm (sends f)) :
    (escapeFrame f).length = f.height / 2 ∧
    (∀ i, i < f.height / 2 → (escapeFrame f)[i]? = some (encodeLine f i)) ∧
    assembleLines (f.height / 2) res = escapeFrame f ∧
    escape_frames [f] = [escapeFrame f] := by
  have hmy : maxY f / 2 = f.height / 2 := by unfold maxY; omega
  have hcanon := escapeFrame_eq_map f
  refine ⟨?_, ?_, ?_, rfl⟩
  · rw [hcanon]; simp [hmy]
  · intro i hi
    rw [hcanon, List.getElem?_map]
    have : (List.range (maxY f / 2))[i]? = some i := by
      rw [List.getElem?_range (by omega)]
    rw [this]
    rfl
  · rw [← hmy]
    exact assembleLines_perm f res hres

/-- C2 witness: for the concrete 1×4 frame, delivering the two row-pair
messages in swapped order still assembles the canonical two output lines. -/
theorem escape_frames_deterministic_witness :
    (escapeFrame exFrame).length = 2 ∧
    assembleLines 2 [(1, encodeLine exFrame 1), (0, encodeLine exFrame 0)] =
      escapeFrame exFrame := by
  have hsends : sends exFrame =
      [(0, encodeLine exFrame 0), (1, encodeLine exFrame 1)] := rfl
  have hperm : [(1, encodeLine exFrame 1), (0, encodeLine exFrame 0)].Perm
      (sends exFrame) := by
    rw [hsends]
    exact List.Perm.swap _ _ _
  have h := escape_frames_deterministic exFrame _ hperm
  exact ⟨h.1, h.2.2.1⟩

/-- C7: a transparent (alpha < 128) upper pixel contributes the exact
substring `"\x1b[0;39;49m"` to its row-pair's line, and a transparent lower
pixel contributes the exact substring `"\x1b[0m "`. -/
theorem transparent_pixel_escapes (f : ImageFrame) (x i : Nat)
    (hx : x < f.width) :
    ((f.pixel x (2 * i)).a < 128 →
      occursIn ANSI_BG_TRANSPARENT_COLOR (encodeLine f i)) ∧
    ((f.pixel x (2 * i + 1)).a < 128 →
      occursIn ANSI_FG_TRANSPARENT_COLOR (encodeLine f i)) := by
  obtain ⟨A, B, hAB⟩ := cellsUpTo_split f (2 * i) f.width x hx
  constructor
  · intro ha
    have hcell : cell f (2 * i) x =
        ANSI_BG_TRANSPARENT_COLOR ++ lowerCell (f.pixel x (2 * i + 1)) := by
      unfold cell upperCell
      rw [if_pos ha]
    refine ⟨A.data, (lowerCell (f.pixel x (2 * i + 1))).data ++ B.data ++
      ANSI_RESET.data ++ ("\n").data, ?_⟩
    have hline : encodeLine f i =
        A ++ (ANSI_BG_TRANSPARENT_COLOR ++ lowerCell (f.pixel x (2 * i + 1)))
          ++ B ++ ANSI_RESET ++ "\n" := by
      rw [encodeLine, hAB, hcell]
    rw [hline]
    simp
  · intro ha
    have hcell : cell f (2 * i) x =
        upperCell (f.pixel x (2 * i)) ++ ANSI_FG_TRANSPARENT_COLOR := by
      unfold cell lowerCell
      rw [if_pos ha]
    refine ⟨A.data ++ (upperCell (f.pixel x (2 * i))).data, B.data ++
      ANSI_RESET.data ++ ("\n").data, ?_⟩
    have hline : encodeLine f i =
        A ++ (upperCell (f.pixel x (2 * i)) ++ ANSI_FG_TRANSPARENT_COLOR)
          ++ B ++ ANSI_RESET ++ "\n" := by
      rw [encodeLine, hAB, hcell]
    rw [hline]
    simp

/-- C7 witness: the fully transparent 1×2 frame's single line contains both
transparent escape substrings. -/
theorem transparent_pixel_escapes_witness :
    occursIn ANSI_BG_TRANSPARENT_COLOR (encodeLine clearFrame 0) ∧
    occursIn ANSI_FG_TRANSPARENT_COLOR (encodeLine clearFrame 0) :=
  ⟨(transparent_pixel_escapes clearFrame 0 0 (by decide)).1 (by decide),
   (transparent_pixel_escapes clearFrame 0 0 (by decide)).2 (by decide)⟩

/-! ### Frame Decoder (src/src/main.rs, lines 71-118)

The format-specific bitstream parsing is delegated to the external `image`
and `gif` crates; a `Codec` packages the three external entry points the
decoder calls (`image::guess_format`, `image::load_from_memory`, and the
GIF frame reader together with the per-frame `RgbaImage::from_raw`
composition, whose first failure is the loop's error). -/

inductive ImgFormat where
  | gif
  | png
  | jpeg
  | bmp
  | other
deriving DecidableEq

/-- The external codec entry points, indexed by the input byte buffer. -/
structure Codec where
  guessFormat : List Nat → Option ImgFormat
  loadFromMemory : List Nat → Option ImageFrame
  gifFrames : List Nat → Except String (List ImageFrame)

/-- `decode_static_image` (lines 109-118). -/
def decode_static_image (c : Codec) (buf : List Nat) :
    Except String (List ImageFrame) :=
  match c.loadFromMemory buf with
  | none => .error "Failed to decode image"
  | some img =>
    if img.width < 2 ∨ img.height < 2 then .error "The input image is too small"
    else .ok [img]

/-- `decode_gif` (lines 85-107). -/
def decode_gif (c : Codec) (buf : List Nat) : Except String (List ImageFrame) :=
  match c.gifFrames buf with
  | .error e => .error e
  | .ok frames =>
    if frames.isEmpty then .error "No frames found in GIF" else .ok frames

/-- `decode_image` (lines 71-83): dispatch on the sniffed format; every
non-GIF classification, and an unclassifiable buffer, go to the static
decoder. -/
def decode_image (c : Codec) (buf : List Nat) : Except String (List ImageFrame) :=
  match c.guessFormat buf with
  | some ImgFormat.gif => decode_gif c buf
  | some _ => decode_static_image c buf
  | none => decode_static_image c buf

lemma dsi_none (c : Codec) (buf : List Nat) (h : c.loadFromMemory buf = none) :
    decode_static_image c buf = .error "Failed to decode image" := by
  unfold decode_static_image
  rw [h]

lemma dsi_some (c : Codec) (buf : List Nat) (img : ImageFrame)
    (h : c.loadFromMemory buf = some img) :
    decode_static_image c buf =
      if img.width < 2 ∨ img.height < 2 then
        .error "The input image is too small"
      else .ok [img] := by
  unfold decode_static_image
  rw [h]

lemma dgif_err (c : Codec) (buf : List Nat) (e : String)
    (h : c.gifFrames buf = .error e) : decode_gif c buf = .error e := by
  unfold decode_gif
  rw [h]

lemma dgif_ok (c : Codec) (buf : List Nat) (frames : List ImageFrame)
    (h : c.gifFrames buf = .ok frames) :
    decode_gif c buf =
      if frames.isEmpty then .error "No frames found in GIF"
      else .ok frames := by
  unfold decode_gif
  rw [h]

lemma di_gif (c : Codec) (buf : List Nat)
    (h : c.guessFormat buf = some ImgFormat.gif) :
    decode_image c buf = decode_gif c buf := by
  unfold decode_image
  rw [h]

lemma di_static (c : Codec) (buf : List Nat)
    (h : c.guessFormat buf ≠ some ImgFormat.gif) :
    decode_image c buf = decode_static_image c buf := by
  unfold decode_image
  rcases hfmt : c.guessFormat buf with _ | fmt
  · rfl
  · cases fmt <;> simp_all

/-- C3: decoding fails exactly when the buffer is unparseable, a static
image has a dimension below 2, or a GIF yields zero frames; a parseable
static image with both dimensions ≥ 2 decodes to exactly one frame; every
successful decode has length ≥ 1. -/
theorem decode_image_spec (c : Codec) (buf : List Nat) :
    ((∃ e, decode_image c buf = .error e) ↔
      (if c.guessFormat buf = some ImgFormat.gif then
        (∃ e, c.gifFrames buf = .error e) ∨ c.gifFrames buf = .ok []
      else
        c.loadFromMemory buf = none ∨
        ∃ img, c.loadFromMemory buf = some img ∧
          (img.width < 2 ∨ img.height < 2))) ∧
    (∀ l, decode_image c buf = .ok l → 1 ≤ l.length) ∧
    (∀ img, c.guessFormat buf ≠ some ImgFormat.gif →
      c.loadFromMemory buf = some img → 2 ≤ img.width → 2 ≤ img.height →
      decode_image c buf = .ok [img]) := by
  refine ⟨?_, ?_, ?_⟩
  · by_cases hg : c.guessFormat buf = some ImgFormat.gif
    · rw [if_pos hg, di_gif c buf hg]
      rcases hgf : c.gifFrames buf with e | frames
      · rw [dgif_err c buf e hgf]
        simp
      · rw [dgif_ok c buf frames hgf]
        by_cases hemp : frames.isEmpty
        · rw [if_pos hemp]
          simp [List.isEmpty_iff.mp hemp]
        · rw [if_neg hemp]
          rw [List.isEmpty_iff] at hemp
          simp [hemp]
    · rw [if_neg hg, di_static c buf hg]
      rcases hlm : c.loadFromMemory buf with _ | img
      · rw [dsi_none c buf hlm]
        simp
      · rw [dsi_some c buf img hlm]
        by_cases hsz : img.width < 2 ∨ img.height < 2
        · rw [if_pos hsz]
          simp [hsz]
        · rw [if_neg hsz]
          simp [hsz]
  · intro l hl
    by_cases hg : c.guessFormat buf = some ImgFormat.gif
    · rw [di_gif c buf hg] at hl
      rcases hgf : c.gifFrames buf with e | frames
      · rw [dgif_err c buf e hgf] at hl
        exact absurd hl (by simp)
      · rw [dgif_ok c buf frames hgf] at hl
        by_cases hemp : frames.isEmpty
        · rw [if_pos hemp] at hl
          exact absurd hl (by simp)
        · rw [if_neg hemp] at hl
          injection hl with hl
          subst hl
          rcases frames with _ | ⟨a, t⟩
          · simp at hemp
          · simp
    · rw [di_static c buf hg] at hl
      rcases hlm : c.loadFromMemory buf with _ | img
      · rw [dsi_none c buf hlm] at hl
        exact absurd hl (by simp)
      · rw [dsi_some c buf img hlm] at hl
        by_cases hsz : img.width < 2 ∨ img.height < 2
        · rw [if_pos hsz] at hl
          exact absurd hl (by simp)
        · rw [if_neg hsz] at hl
          injection hl with hl
          subst hl
          simp
  · intro img hng hlm hw hh
    rw [di_static c buf hng, dsi_some c buf img hlm, if_neg (by omega)]

/-- A 2×2 opaque black frame used as a concrete decoded image. -/
def blackFrame : ImageFrame := ⟨2, 2, fun _ _ => ⟨0, 0, 0, 255⟩⟩

/-- A codec that classifies everything as PNG and decodes it to the 2×2
black frame. -/
def exCodec : Codec :=
  ⟨fun _ => some ImgFormat.png, fun _ => some blackFrame, fun _ => .ok []⟩

/-- C3 witness: under `exCodec`, decoding any buffer succeeds with exactly
the one 2×2 frame. -/
theorem decode_image_spec_witness :
    decode_image exCodec [] = .ok [blackFrame] :=
  (decode_image_spec exCodec []).2.2 blackFrame (by simp [exCodec])
    rfl (by decide) (by decide)

/-! ### Frame Scaler (src/src/main.rs `scale_frames`, lines 120-153) -/

/-- Rust's overflow-checked `usize` subtraction: `none` models the panic on
underflow. -/
def checkedSub (a b : Nat) : Option Nat :=
  if a < b then none else some (a - b)

/-- The target pixel box `(w, h)` of `scale_frames` (lines 127-128), given
the ambient terminal geometry; `is_terminal`/`get_terminal_size` with their
80×24 fallback are modelled by passing the effective `cols`, `rows`. -/
def targetBox (cols rows : Nat) : Option (Nat × Nat) :=
  (checkedSub rows RESIZE_OFFSET_Y).map
    (fun d => (cols * RESIZE_FACTOR_X, d * RESIZE_FACTOR_Y))

/-- The per-frame dimension computation (lines 133-143):
`aspect = ow/oh`, `target = w/h`, clamp one axis and derive the other.
The source's `f32` arithmetic is modelled as exact rational arithmetic and
`as u32` on the nonnegative results as `Nat.floor`. -/
def scaleDims (ow oh w h : Nat) : Nat × Nat :=
  if (w : ℚ) / (h : ℚ) < (ow : ℚ) / (oh : ℚ) then
    (w, ⌊(w : ℚ) / ((ow : ℚ) / (oh : ℚ))⌋₊)
  else
    (⌊(h : ℚ) * ((ow : ℚ) / (oh : ℚ))⌋₊, h)

/-- Modelled from the spec: `DynamicImage::resize` (external image codec
crate, §4.2) — a Lanczos-class resample realising the computed target
dimensions. Pixel contents are irrelevant to the dimensional claims and
keep the source accessor. -/
def resizeFrame (f : ImageFrame) (nw nh : Nat) : ImageFrame :=
  ⟨nw, nh, f.pixel⟩

/-- `scale_frames` (lines 120-153). -/
def scale_frames (cols rows : Nat) (frames : List ImageFrame) :
    Option (List ImageFrame) :=
  (targetBox cols rows).map (fun wh =>
    frames.map (fun f =>
      let d := scaleDims f.width f.height wh.1 wh.2
      resizeFrame f d.1 d.2))

lemma scaleDims_fits (ow oh w h : Nat) (how : 0 < ow) (hoh : 0 < oh)
    (hw : 0 < w) (hh : 0 < h) :
    (scaleDims ow oh w h).1 ≤ w ∧ (scaleDims ow oh w h).2 ≤ h ∧
    ((scaleDims ow oh w h).1 = w ∨ (scaleDims ow oh w h).2 = h) := by
  have howq : (0 : ℚ) < (ow : ℚ) := by exact_mod_cast how
  have hohq : (0 : ℚ) < (oh : ℚ) := by exact_mod_cast hoh
  have hwq : (0 : ℚ) < (w : ℚ) := by exact_mod_cast hw
  have hhq : (0 : ℚ) < (h : ℚ) := by exact_mod_cast hh
  have haspect : (0 : ℚ) < (ow : ℚ) / (oh : ℚ) := div_pos howq hohq
  have htarget : (0 : ℚ) < (w : ℚ) / (h : ℚ) := div_pos hwq hhq
  unfold scaleDims
  by_cases hc : (w : ℚ) / (h : ℚ) < (ow : ℚ) / (oh : ℚ)
  · rw [if_pos hc]
    refine ⟨le_refl w, ?_, Or.inl rfl⟩
    have hdiv : (w : ℚ) / ((ow : ℚ) / (oh : ℚ)) < (w : ℚ) / ((w : ℚ) / (h : ℚ)) :=
      div_lt_div_of_pos_left hwq htarget hc
    have hid : (w : ℚ) / ((w : ℚ) / (h : ℚ)) = (h : ℚ) := by
      field_simp
    rw [hid] at hdiv
    have := (Nat.floor_lt (le_of_lt (div_pos hwq haspect))).mpr hdiv
    omega
  · rw [if_neg hc]
    refine ⟨?_, le_refl h, Or.inr rfl⟩
    have hle : (ow : ℚ) / (oh : ℚ) ≤ (w : ℚ) / (h : ℚ) := le_of_not_lt hc
    have hmul : (h : ℚ) * ((ow : ℚ) / (oh : ℚ)) ≤ (h : ℚ) * ((w : ℚ) / (h : ℚ)) :=
      mul_le_mul_of_nonneg_left hle (le_of_lt hhq)
    have hid : (h : ℚ) * ((w : ℚ) / (h : ℚ)) = (w : ℚ) := by
      field_simp
    rw [hid] at hmul
    have := Nat.floor_le_floor hmul
    rw [Nat.floor_natCast] at this
    exact this

/-- C4: every scaled frame fits inside the target box
(`cols * RESIZE_FACTOR_X` × `(rows - RESIZE_OFFSET_Y) * RESIZE_FACTOR_Y`)
and at least one of its axes equals the corresponding box bound. -/
theorem scale_frames_fit (cols rows : Nat) (frames scaled : List ImageFrame)
    (hs : scale_frames cols rows frames = some scaled)
    (hcols : 0 < cols) (hrows : RESIZE_OFFSET_Y < rows)
    (hframes : ∀ f ∈ frames, 0 < f.width ∧ 0 < f.height) :
    ∀ g ∈ scaled,
      g.width ≤ cols * RESIZE_FACTOR_X ∧
      g.height ≤ (rows - RESIZE_OFFSET_Y) * RESIZE_FACTOR_Y ∧
      (g.width = cols * RESIZE_FACTOR_X ∨
       g.height = (rows - RESIZE_OFFSET_Y) * RESIZE_FACTOR_Y) := by
  intro g hg
  have hbox : targetBox cols rows =
      some (cols * RESIZE_FACTOR_X, (rows - RESIZE_OFFSET_Y) * RESIZE_FACTOR_Y) := by
    unfold targetBox checkedSub
    rw [if_neg (by omega)]
    rfl
  unfold scale_frames at hs
  rw [hbox, Option.map_some'] at hs
  injection hs with hs
  subst hs
  obtain ⟨f, hf, rfl⟩ := List.mem_map.mp hg
  obtain ⟨hfw, hfh⟩ := hframes f hf
  have h1 : 0 < cols * RESIZE_FACTOR_X := by
    unfold RESIZE_FACTOR_X
    omega
  have h2 : 0 < (rows - RESIZE_OFFSET_Y) * RESIZE_FACTOR_Y := by
    unfold RESIZE_OFFSET_Y RESIZE_FACTOR_Y at *
    omega
  simpa [resizeFrame] using
    scaleDims_fits f.width f.height (cols * RESIZE_FACTOR_X)
      ((rows - RESIZE_OFFSET_Y) * RESIZE_FACTOR_Y) hfw hfh h1 h2

/-- A 7×5 opaque frame: scaled for an 80×24 terminal it becomes 44×32. -/
def f7 : ImageFrame := ⟨7, 5, fun _ _ => ⟨1, 2, 3, 255⟩⟩

/-- C4 witness: the 7×5 frame on the default 80×24 geometry scales to
44×32, which fits the 80×32 box and attains the height bound. -/
theorem scale_frames_fit_witness :
    scale_frames 80 24 [f7] = some [resizeFrame f7 44 32] ∧
    ((resizeFrame f7 44 32).width ≤ 80 ∧
     (resizeFrame f7 44 32).height ≤ 32 ∧
     ((resizeFrame f7 44 32).width = 80 ∨
      (resizeFrame f7 44 32).height = 32)) := by
  have hd : scaleDims 7 5 80 32 = (44, 32) := by
    unfold scaleDims
    norm_num [Nat.floor_eq_iff]
  have hs : scale_frames 80 24 [f7] = some [resizeFrame f7 44 32] := by
    unfold scale_frames targetBox checkedSub
    norm_num [RESIZE_OFFSET_Y, RESIZE_FACTOR_X, RESIZE_FACTOR_Y, f7, hd]
  refine ⟨hs, ?_⟩
  have hall := scale_frames_fit 80 24 [f7] [resizeFrame f7 44 32] hs
    (by norm_num) (by norm_num [RESIZE_OFFSET_Y])
    (by
      intro f hf
      rw [List.mem_singleton] at hf
      subst hf
      exact ⟨by norm_num [f7], by norm_num [f7]⟩)
    (resizeFrame f7 44 32) (List.mem_singleton.mpr rfl)
  simpa [RESIZE_FACTOR_X, RESIZE_FACTOR_Y, RESIZE_OFFSET_Y] using hall

/-- The Frame Scaler's box height as wired from `main`
(src/src/main.rs lines 263-274): `scale_frames` receives no argument derived
from `Args`, so the parsed CLI flag `top_offset` (src/src/cli.rs lines
23-25, recorded here as the first parameter) is never consumed and the
fixed constant `RESIZE_OFFSET_Y` is used instead. -/
def scaleBoxHeight (topOffset rows : Nat) : Option Nat :=
  (targetBox DEFAULT_TERM_COLS rows).map Prod.snd

/-- C9: the claim says the box height equals `(rows - top_offset) * 2` for
the flag's value. The code ignores the flag: on a 24-row terminal with
`--top_offset 0` the box height is `(24 - 8) * 2 = 32`, not
`(24 - 0) * 2 = 48`, and the box height is independent of the flag
entirely. -/
theorem top_offset_flag_ignored :
    scaleBoxHeight 0 24 = some 32 ∧
    scaleBoxHeight 0 24 ≠ some ((24 - 0) * 2) ∧
    ∀ t u rows, scaleBoxHeight t rows = scaleBoxHeight u rows := by
  refine ⟨by decide, by decide, fun t u rows => rfl⟩

/-- C10: `scale_frames` returns a scaled sequence exactly when the terminal
reports at least `RESIZE_OFFSET_Y = 8` rows; for fewer rows the unsigned
subtraction `rows - RESIZE_OFFSET_Y` underflows (modelled as `none`,
Rust's overflow-checked panic) and the operation aborts. -/
theorem scale_frames_total_iff (cols rows : Nat) (frames : List ImageFrame) :
    (scale_frames cols rows frames).isSome ↔ RESIZE_OFFSET_Y ≤ rows := by
  unfold scale_frames targetBox checkedSub
  by_cases h : rows < RESIZE_OFFSET_Y
  · rw [if_pos h]
    simp
    omega
  · rw [if_neg h]
    simp
    omega

/-! ### Playback Controller (src/src/main.rs `print_frames`, lines 211-261)

The trace of externally visible effects of one run. `disableEcho` is the
`disable_echo()` call whose `TermState` is dropped at scope exit;
`restoreEcho` is that `Drop` impl (src/src/terminal.rs lines 59-77) invoking
the restoration. The cancellation flag's successive values observed by the
loop's `playing.load(..)` checks are passed as a list (`[]` and a `false`
head both end the loop); `ctrlc::set_handler`'s possible failure is the
`handlerOk` parameter (its `?` is the one early `Err` return). -/

inductive Eff where
  | disableEcho
  | restoreEcho
  | cursorHide
  | cursorShow
  | styleReset
  | write (s : String)
  | frame (lines : List String)
  | sleep
deriving DecidableEq

/-- `format!("{} {}", ANSI_CURSOR_UP, h)` (line 241): the `\x7b\x7d`
placeholder of the constant is not interpolated; the count is appended
after a space. -/
def cursorUpStr (n : Nat) : String :=
  ANSI_CURSOR_UP ++ " " ++ Nat.repr n

/-- The animation loop (lines 238-254): one iteration per `true` flag
value; cursor-up on every iteration but the first, then the frame's lines,
then the hint when not silent, then the sleep. -/
def animLoop (frames : List (List String)) (silent : Bool) (h : Nat) :
    Nat → List Bool → List Eff
  | _, [] => []
  | _, false :: _ => []
  | i, true :: rest =>
    (if i = 0 then [] else [Eff.write (cursorUpStr h)]) ++
    [Eff.frame (frames.getD (i % frames.length) [])] ++
    (if silent then [] else [Eff.write "\npress `ctrl c` to exit\n"]) ++
    [Eff.sleep] ++ animLoop frames silent h (i + 1) rest

/-- `print_frames` (lines 211-261): returns the Rust result and the effect
trace of the run. -/
def print_frames (isTerm handlerOk silent : Bool)
    (frames : List (List String)) (flags : List Bool) :
    Except Unit Unit × List Eff :=
  let pre := (if isTerm then [Eff.disableEcho] else []) ++
    [Eff.cursorHide, Eff.write "\n"]
  let dropState := if isTerm then [Eff.restoreEcho] else []
  if frames.length = 1 then
    (.ok (), pre ++ [Eff.frame (frames.getD 0 [])] ++
      [Eff.styleReset, Eff.cursorShow] ++ dropState)
  else if handlerOk then
    let h := (frames.getD 0 []).length +
      (if silent then 0 else NUM_ADDITIONAL_LINES)
    (.ok (), pre ++ animLoop frames silent h 0 flags ++
      [Eff.styleReset, Eff.cursorShow] ++ dropState)
  else
    (.error (), pre ++ dropState)

/-- Number of terminal-state restorations in a trace. -/
def restoreCount (t : List Eff) : Nat :=
  t.countP (fun e => decide (e = Eff.restoreEcho))

/-- Number of whole frames printed in a trace. -/
def isFrameEff : Eff → Bool
  | Eff.frame _ => true
  | _ => false

def framesPrinted (t : List Eff) : Nat :=
  t.countP isFrameEff

lemma animLoop_no_restore (frames : List (List String)) (silent : Bool)
    (h : Nat) : ∀ i flags,
    List.countP (fun e => decide (e = Eff.restoreEcho))
      (animLoop frames silent h i flags) = 0 := by
  intro i flags
  induction flags generalizing i with
  | nil => rfl
  | cons b rest ih =>
    cases b
    · rfl
    · unfold animLoop
      rw [List.countP_append, List.countP_append, List.countP_append,
        List.countP_append, ih (i + 1)]
      by_cases hi : i = 0 <;> by_cases hs : silent <;>
        simp [hi, hs, List.countP_cons]

/-- C5: on every run of `print_frames` in which raw/no-echo mode was
entered (`isTerm = true`), the captured terminal state is restored exactly
once — on normal single-frame completion, on animation cancellation after
any number of iterations, and on the error return from signal-handler
installation. -/
theorem term_restore_once (handlerOk silent : Bool)
    (frames : List (List String)) (flags : List Bool) :
    restoreCount (print_frames true handlerOk silent frames flags).2 = 1 := by
  unfold print_frames
  by_cases h1 : frames.length = 1
  · rw [if_pos h1]
    simp [restoreCount, List.countP_append, List.countP_cons]
  · rw [if_neg h1]
    by_cases h2 : handlerOk
    · rw [if_pos h2]
      simp [restoreCount, List.countP_append, List.countP_cons,
        animLoop_no_restore]
    · rw [if_neg h2]
      simp [restoreCount, List.countP_append, List.countP_cons]

/-- Animation frames used as concrete playback input: two frames of two
lines each. -/
def twoFrames : List (List String) := [["a", "b"], ["c", "d"]]

/-- C6: in animation mode every iteration after the first is prefixed by
the cursor-up emission with `N` = frame line count plus
`NUM_ADDITIONAL_LINES` when not silent (here `2 + 2 = 4`) and the line
count alone when silent (`2`) — but the emission is
`format!("{} {}", ANSI_CURSOR_UP, h)`, which leaves the `\x7b\x7d`
placeholder of `"\x1b[\x7b\x7dA"` unfilled and appends the count after the
`A`, so the exact sequence `ESC[4A` (resp. `ESC[2A`) claimed by the spec is
never written. -/
theorem cursor_up_escape_code_bug :
    Eff.write (cursorUpStr 4) ∈
      (print_frames false true false twoFrames [true, true, false]).2 ∧
    Eff.write (cursorUpStr 2) ∈
      (print_frames false true true twoFrames [true, true, false]).2 ∧
    cursorUpStr 4 = "\x1b[\x7b\x7dA 4" ∧
    cursorUpStr 4 ≠ "\x1b[4A" ∧
    (Eff.write "\x1b[4A") ∉
      (print_frames false true false twoFrames [true, true, false]).2 := by
  decide

/-- C8: if the cancellation flag is observed `true` at the first loop check
and `false` at the second (i.e. it was set to stopped before the first
per-frame sleep completed), the animation loop prints exactly one frame. -/
theorem cancel_after_one_frame (isTerm silent : Bool)
    (frames : List (List String)) (hlen : 1 < frames.length) :
    framesPrinted (print_frames isTerm true silent frames [true, false]).2 = 1 := by
  unfold print_frames
  rw [if_neg (by omega), if_pos rfl]
  unfold animLoop
  unfold animLoop
  by_cases hs : silent <;>
    simp [framesPrinted, List.countP_append, List.countP_cons, isFrameEff,
      restoreCount, hs] <;>
    cases isTerm <;> simp [isFrameEff]

/-- C8 witness: with the two concrete frames, flag history `[true, false]`
yields exactly one printed frame. -/
theorem cancel_after_one_frame_witness :
    framesPrinted (print_frames true true false twoFrames [true, false]).2 = 1 :=
  cancel_after_one_frame true false twoFrames (by decide)

end Imgrs
